import Mathlib

/-!
Shallow embedding of the security-relevant logic of the
siliconflow-image-mcp repository: the path authorization guard
(`isPathAllowed`, `getDefaultAllowedDirs` in `src/services/siliconflow.ts`)
and the payload persistence engine (`validateBase64Image`,
`validateMimeType`, `saveImageToFile`, `getImageBaseDir` in the file-utility
module), together with the image-content resolution step of `editImage`.

JavaScript strings are modelled as `List Char`.  Node's `path` utilities
(`path.resolve`, `path.join`, `path.normalize`, `path.extname`, POSIX
behaviour with separator `/`) and `Buffer.from(·, "base64")` are external
library collaborators of the repository code; they are modelled here as
executable Lean functions faithful to Node's documented POSIX semantics on
string inputs.  Filesystem effects (`fs.mkdir`, `fs.writeFile`) are
recorded as an explicit trace of operations, and the evaluation order of
the save pipeline is recorded as an explicit trace of steps, so that
ordering and side-effect claims are statable.
-/

namespace SFImage

/-- A JavaScript string, modelled as its list of characters. -/
abbrev Str := List Char

/-- Convert a Lean string literal to the `List Char` model. -/
def str (s : String) : Str := s.data

/-- The POSIX path separator, `path.sep`. -/
def sep : Char := '/'

/-! ### Model of Node's POSIX path utilities -/

/-- Helper for `splitSegs`: prepend a character to the first segment. -/
def consHead (c : Char) : List Str → List Str
  | [] => [[c]]
  | s :: rest => (c :: s) :: rest

/-- Split a path string on the separator `/` (the segment decomposition
underlying Node's path normalisation).  `splitSegs "/a/b" = ["", "a", "b"]`. -/
def splitSegs : Str → List Str
  | [] => [[]]
  | c :: cs => if c = sep then [] :: splitSegs cs else consHead c (splitSegs cs)

/-- Join segments back with the separator `/`. -/
def joinSegs : List Str → Str
  | [] => []
  | [s] => s
  | s :: t :: rest => s ++ sep :: joinSegs (t :: rest)

/-- One step of Node's path normalisation for an absolute path: empty and
`.` segments are dropped, `..` pops the previous kept segment (and is
dropped at the root), every other segment is kept. -/
def normStep (acc : List Str) (s : Str) : List Str :=
  if s = [] ∨ s = ['.'] then acc
  else if s = ['.', '.'] then acc.dropLast
  else acc ++ [s]

/-- Normalise the segment list of an absolute path (Node's
`normalizeString` with `allowAboveRoot = false`). -/
def normAbs (segs : List Str) : List Str := segs.foldl normStep []

/-- One step of Node's path normalisation for a relative path: like
`normStep`, except that a `..` that cannot pop a kept segment is kept. -/
def normRelStep (acc : List Str) (s : Str) : List Str :=
  if s = [] ∨ s = ['.'] then acc
  else if s = ['.', '.'] then
    match acc.getLast? with
    | some t => if t = ['.', '.'] then acc ++ [s] else acc.dropLast
    | none => acc ++ [s]
  else acc ++ [s]

/-- Normalise the segment list of a relative path (Node's
`normalizeString` with `allowAboveRoot = true`). -/
def normRel (segs : List Str) : List Str := segs.foldl normRelStep []

/-- Model of Node's `path.normalize` (POSIX): resolves `.` and `..`
segments and collapses repeated separators, preserving absoluteness and a
trailing separator. -/
def pathNormalize (p : Str) : Str :=
  if p = [] then ['.']
  else
    let isAbs := p.head? = some sep
    let trail := p.getLast? = some sep
    let segs := if isAbs then normAbs (splitSegs p) else normRel (splitSegs p)
    let body := joinSegs segs
    let body2 := if trail ∧ segs ≠ [] then body ++ [sep] else body
    if isAbs then sep :: body2
    else if body2 = [] then ['.'] else body2

/-- Model of Node's `path.join` (POSIX) at two arguments: empty parts are
skipped, the rest are joined with `/` and normalised. -/
def pathJoin (a b : Str) : Str :=
  if a = [] ∧ b = [] then ['.']
  else if a = [] then pathNormalize b
  else if b = [] then pathNormalize a
  else pathNormalize (a ++ sep :: b)

/-- Resolution of a path that is already absolute: normalise it to
`/` followed by the cleaned segments. -/
def resolveAbs (p : Str) : Str := sep :: joinSegs (normAbs (splitSegs p))

/-- Model of Node's `path.resolve` (POSIX) at one argument, with the
process working directory `cwd` explicit: an absolute argument is
normalised as-is, a relative argument is resolved against `cwd`.
`path.resolve` drops any trailing separator. -/
def pathResolve (cwd p : Str) : Str :=
  if p.head? = some sep then resolveAbs p else resolveAbs (cwd ++ sep :: p)

/-! ### Path authorization guard (`src/services/siliconflow.ts`) -/

/-- Function `isPathAllowed` from `SiliconFlowService`: resolve the candidate, then
scan the allowed directories; the candidate is allowed when it starts with
a resolved allowed directory plus the separator, or equals it.  The
service's `allowedImageDirs` field and the process working directory are
explicit parameters. -/
def isPathAllowed (allowedImageDirs : List Str) (cwd filePath : Str) : Bool :=
  let resolvedPath := pathResolve cwd filePath
  allowedImageDirs.any fun allowedDir =>
    let resolvedAllowedDir := pathResolve cwd allowedDir
    (resolvedAllowedDir ++ [sep]).isPrefixOf resolvedPath ||
      resolvedPath == resolvedAllowedDir

/-- Function `getDefaultAllowedDirs` from `SiliconFlowService`: home directory,
working directory, the `SILICONFLOW_IMAGE_DIR` environment value and the
system temp directory, skipping falsy (empty) entries; `os.tmpdir()` is
always included.  An unset environment variable is modelled as `[]`. -/
def getDefaultAllowedDirs (homeDir cwd customDir tmpdir : Str) : List Str :=
  (if homeDir ≠ [] then [homeDir] else []) ++
  (if cwd ≠ [] then [cwd] else []) ++
  (if customDir ≠ [] then [customDir] else []) ++
  [tmpdir]

/-! ### Payload persistence engine (file-utility module) -/

/-- The typed failures of the save pipeline, one constructor per distinct
`throw new Error(...)` site of the file-utility module, carrying the data
interpolated into the message. -/
inductive SaveErr : Type where
  /-- Message "Invalid image data: expected string" (falsy input). -/
  | invalidInput : SaveErr
  /-- Message "Invalid base64 format". -/
  | invalidFormat : SaveErr
  /-- Message "Image too large: estimated ... exceeds maximum ..." -/
  | estimatedTooLarge (estimatedSize : Nat) : SaveErr
  /-- Message "Invalid MIME type: ..." -/
  | unsupportedMimeType (mimeType : Str) : SaveErr
  /-- Message "Decoded image too large: ... exceeds maximum ..." -/
  | decodedTooLarge (bufferLength : Nat) : SaveErr
deriving DecidableEq, Repr

/-- The error taxonomy of the specification (§7): both size failures are
`PayloadTooLarge` kinds. -/
inductive ErrKind : Type where
  | invalidInput | invalidFormat | payloadTooLarge | unsupportedMimeType
deriving DecidableEq, Repr

/-- Map each code-level failure to its specification kind. -/
def SaveErr.kind : SaveErr → ErrKind
  | .invalidInput => .invalidInput
  | .invalidFormat => .invalidFormat
  | .estimatedTooLarge _ => .payloadTooLarge
  | .unsupportedMimeType _ => .unsupportedMimeType
  | .decodedTooLarge _ => .payloadTooLarge

/-- Filesystem operations performed by the save pipeline, in order. -/
inductive FsOp : Type where
  | mkdir (p : Str)
  | writeFile (p : Str)
deriving DecidableEq, Repr

/-- The steps of the save pipeline, used to record evaluation order. -/
inductive Step : Type where
  | typeCheck | formatCheck | sizeEstimate | mimeCheck
  | dirPrep | filenameGen | decode | postSizeCheck | write
deriving DecidableEq, Repr

/-- Constant `MAX_IMAGE_SIZE` from the file-utility module: 10 MB. -/
def MAX_IMAGE_SIZE : Nat := 10 * 1024 * 1024

/-- One character of the base64 alphabet `[A-Za-z0-9+/]`. -/
def isB64Char (c : Char) : Bool :=
  ('A' ≤ c && c ≤ 'Z') || ('a' ≤ c && c ≤ 'z') || ('0' ≤ c && c ≤ '9') ||
    c = '+' || c = '/'

/-- Whether a string matches the regular expression
`^[A-Za-z0-9+/]*={0,2}$` from `validateBase64Image`: at most two trailing
`=` characters, everything before them in the base64 alphabet. -/
def matchesB64 (s : Str) : Bool :=
  let pad := s.reverse.takeWhile (fun c => c = '=')
  let body := (s.reverse.dropWhile (fun c => c = '=')).reverse
  pad.length ≤ 2 && body.all isB64Char

/-- Function `validateBase64Image` from the file-utility module, instrumented with
the list of checks it evaluates: falsy/type check, base64-format regex
check, then the pre-decode size estimate `Math.ceil(len * 3 / 4)` against
`MAX_IMAGE_SIZE`.  Returns `some e` for the `throw` of error `e`, `none`
when validation passes. -/
def validateBase64Image (base64Data : Str) : Option SaveErr × List Step :=
  if base64Data = [] then (some .invalidInput, [.typeCheck])
  else if ¬ matchesB64 base64Data then
    (some .invalidFormat, [.typeCheck, .formatCheck])
  else
    let estimatedSize := (base64Data.length * 3 + 3) / 4
    if estimatedSize > MAX_IMAGE_SIZE then
      (some (.estimatedTooLarge estimatedSize),
        [.typeCheck, .formatCheck, .sizeEstimate])
    else (none, [.typeCheck, .formatCheck, .sizeEstimate])

/-- The MIME allow-list of `validateMimeType`. -/
def allowedMimeTypes : List Str :=
  [str "image/png", str "image/jpeg", str "image/jpg", str "image/webp"]

/-- Function `validateMimeType` from the file-utility module. -/
def validateMimeType (mimeType : Str) : Option SaveErr :=
  if allowedMimeTypes.contains mimeType then none
  else some (.unsupportedMimeType mimeType)

/-- Function `getImageBaseDir` from the file-utility module: the
`SILICONFLOW_IMAGE_DIR` environment value if set (modelled as non-empty),
else `path.join(os.tmpdir(), "siliconflow-images")`. -/
def getImageBaseDir (customDir tmpdir : Str) : Str :=
  if customDir ≠ [] then customDir
  else pathJoin tmpdir (str "siliconflow-images")

/-- One lowercase hexadecimal digit, `"0123456789abcdef"` indexing. -/
def hexDigitChar (n : Nat) : Char :=
  if n < 10 then Char.ofNat ('0'.toNat + n) else Char.ofNat ('a'.toNat + (n - 10))

/-- Hex encoding of one byte as two lowercase hex characters. -/
def hexByte (b : Nat) : Str := [hexDigitChar (b / 16), hexDigitChar (b % 16)]

/-- Model of `Buffer.toString("hex")`: hex encoding of a byte list. -/
def hexEncode (bs : List Nat) : Str := bs.flatMap hexByte

/-- The file-extension selection of `saveImageToFile`, extracted from its
inline conditional: `jpg` for the two JPEG MIME types, `webp` for WebP,
`png` otherwise.  It depends on the MIME type only. -/
def extensionFor (mimeType : Str) : Str :=
  if mimeType = str "image/jpeg" ∨ mimeType = str "image/jpg" then str "jpg"
  else if mimeType = str "image/webp" then str "webp"
  else str "png"

/-- Model of `Buffer.from(s, "base64").length` for strings in the base64
alphabet: Node decodes every non-padding character, producing
`⌊3·m/4⌋` bytes for `m` non-`=` characters. -/
def nodeDecodeLen (s : Str) : Nat :=
  (s.filter (fun c => c ≠ '=')).length * 3 / 4

deriving instance DecidableEq for Except

/-- The complete observable outcome of one `saveImageToFile` call: the
returned path or thrown error, the filesystem operations performed, and
the pipeline steps evaluated, each in order. -/
structure SaveOutcome where
  result : Except SaveErr Str
  ops : List FsOp
  steps : List Step
deriving DecidableEq, Repr

/-- Function `saveImageToFile` from the file-utility module, translated line by
line.  Environment and nondeterminism are explicit parameters: `decodeLen`
models the external `Buffer.from(·, "base64").length` (instantiate with
`nodeDecodeLen` for Node's actual behaviour), `customDir`/`tmpdir` feed
`getImageBaseDir`, and `randomBytes` is the output of
`crypto.randomBytes(8)`.  The body performs, in source order: the two
validations, `fs.mkdir(tempDir, recursive)`, extension selection from the
validated MIME type, random-suffix and filename construction,
`path.join`, base64 decode, the post-decode size check, and
`fs.writeFile`. -/
def saveImageToFile (decodeLen : Str → Nat) (customDir tmpdir : Str)
    (base64Data pfx mimeType : Str) (randomBytes : List Nat) : SaveOutcome :=
  let (v1, t1) := validateBase64Image base64Data
  match v1 with
  | some e => ⟨.error e, [], t1⟩
  | none =>
    match validateMimeType mimeType with
    | some e => ⟨.error e, [], t1 ++ [.mimeCheck]⟩
    | none =>
      let tempDir := getImageBaseDir customDir tmpdir
      let extension := extensionFor mimeType
      let randomSuffix := hexEncode randomBytes
      let filename := pfx ++ str "_" ++ randomSuffix ++ str "." ++ extension
      let filepath := pathJoin tempDir filename
      let bufferLength := decodeLen base64Data
      if bufferLength > MAX_IMAGE_SIZE then
        ⟨.error (.decodedTooLarge bufferLength), [.mkdir tempDir],
          t1 ++ [.mimeCheck, .dirPrep, .filenameGen, .decode, .postSizeCheck]⟩
      else
        ⟨.ok filepath, [.mkdir tempDir, .writeFile filepath],
          t1 ++ [.mimeCheck, .dirPrep, .filenameGen, .decode, .postSizeCheck,
            .write]⟩

/-! ### Image-content resolution in `editImage`
(`src/services/siliconflow.ts`) -/

/-- Model of Node's `path.extname` (POSIX) composed with `toLowerCase`,
as used by `editImage`: the substring of the final segment from its last
`.` on (empty when the final segment has no `.` past position 0),
lowercased. -/
def extnameLower (p : Str) : Str :=
  let base := (splitSegs p).getLastD []
  if base = ['.'] ∨ base = ['.', '.'] then []
  else
    let afterDot := base.reverse.takeWhile (fun c => c ≠ '.')
    if afterDot.length = base.length then []
    else if afterDot.length + 1 = base.length then []
    else '.' :: (afterDot.reverse.map Char.toLower)

/-- The branch of `editImage` that turns the caller's `image` string into
the request's image content.  `readFileBase64 p = some b` models a
successful `fs.readFileSync(p)` whose bytes base64-encode to `b`; `none`
models a thrown filesystem error.  A data URL or http(s) URL passes
through; otherwise the path guard decides between reading the file and
falling back to treating the string as raw base64 data. -/
def resolveImageContent (allowedImageDirs : List Str) (cwd : Str)
    (readFileBase64 : Str → Option Str) (image : Str) : Str :=
  if (str "data:image/").isPrefixOf image then image
  else if (str "http://").isPrefixOf image ∨ (str "https://").isPrefixOf image then
    image
  else if ¬ isPathAllowed allowedImageDirs cwd image then
    str "data:image/png;base64," ++ image
  else
    match readFileBase64 image with
    | some base64Data =>
      let ext := extnameLower image
      let mimeType :=
        if ext = str ".png" then str "image/png"
        else if ext = str ".jpg" ∨ ext = str ".jpeg" then str "image/jpeg"
        else if ext = str ".webp" then str "image/webp"
        else str "image/png"
      str "data:" ++ mimeType ++ str ";base64," ++ base64Data
    | none => str "data:image/png;base64," ++ image

/-! ### Specification-side definitions

The following definitions transcribe wording of the specification (not the
source); the theorems below compare the source-translated functions
against them. -/

/-- Spec §3 invariant wording: a (resolved, absolute) path `p` "is a
descendant of, or equal to" the directory `base` when it equals `base` or
has `base` plus the separator as a prefix. -/
def withinDir (base p : Str) : Bool :=
  p == base || (base ++ [sep]).isPrefixOf p

/-- A path segment that survives normalisation: neither empty nor `.`. -/
def keepSeg (s : Str) : Bool := s ≠ [] && s ≠ ['.']

/-- Apply `f` to the last element of a list (helper for reasoning about
the final path segment). -/
def modLast (f : Str → Str) : List Str → List Str
  | [] => []
  | [s] => [f s]
  | s :: t :: rest => s :: modLast f (t :: rest)

/-- Spec §4.2 "fail fast, first violation wins": the first violated check
of the pipeline, evaluated in the order the checks occur in the code
(type, format, size estimate, MIME allow-list, post-decode size). -/
def firstViolation (decodeLen : Str → Nat) (base64Data mimeType : Str) :
    Option SaveErr :=
  if base64Data = [] then some .invalidInput
  else if ¬ matchesB64 base64Data then some .invalidFormat
  else if (base64Data.length * 3 + 3) / 4 > MAX_IMAGE_SIZE then
    some (.estimatedTooLarge ((base64Data.length * 3 + 3) / 4))
  else if ¬ allowedMimeTypes.contains mimeType then
    some (.unsupportedMimeType mimeType)
  else if decodeLen base64Data > MAX_IMAGE_SIZE then
    some (.decodedTooLarge (decodeLen base64Data))
  else none

/-- The step order a successful save actually executes (source order):
validations, directory preparation, filename generation, decode,
post-decode size check, write. -/
def saveStepOrder : List Step :=
  [.typeCheck, .formatCheck, .sizeEstimate, .mimeCheck,
   .dirPrep, .filenameGen, .decode, .postSizeCheck, .write]

/-- The step order claimed by the specification (§4.2 steps 1-9):
decode and the post-decode size check before directory preparation and
filename generation. -/
def claimedStepOrder : List Step :=
  [.typeCheck, .formatCheck, .sizeEstimate, .mimeCheck,
   .decode, .postSizeCheck, .dirPrep, .filenameGen, .write]

/-- The steps evaluated by a save that throws the given error. -/
def stepsOnFailure : SaveErr → List Step
  | .invalidInput => [.typeCheck]
  | .invalidFormat => [.typeCheck, .formatCheck]
  | .estimatedTooLarge _ => [.typeCheck, .formatCheck, .sizeEstimate]
  | .unsupportedMimeType _ =>
      [.typeCheck, .formatCheck, .sizeEstimate, .mimeCheck]
  | .decodedTooLarge _ =>
      [.typeCheck, .formatCheck, .sizeEstimate, .mimeCheck,
       .dirPrep, .filenameGen, .decode, .postSizeCheck]

/-! ### Helper lemmas about the path model -/

theorem splitSegs_ne_nil (p : Str) : splitSegs p ≠ [] := by
  induction p with
  | nil => simp [splitSegs]
  | cons c cs ih =>
    simp only [splitSegs]
    split
    · simp
    · cases h : splitSegs cs with
      | nil => exact absurd h ih
      | cons a rest => simp [consHead]

theorem sep_not_mem_of_mem_splitSegs {p : Str} {s : Str}
    (hs : s ∈ splitSegs p) : sep ∉ s := by
  induction p generalizing s with
  | nil =>
    simp [splitSegs] at hs
    simp [hs]
  | cons c cs ih =>
    simp only [splitSegs] at hs
    split at hs
    · rcases List.mem_cons.mp hs with h | h
      · simp [h]
      · exact ih h
    · rename_i hc
      cases h : splitSegs cs with
      | nil => exact absurd h (splitSegs_ne_nil cs)
      | cons a rest =>
        rw [h] at hs
        simp only [consHead] at hs
        rcases List.mem_cons.mp hs with h2 | h2
        · subst h2
          intro hmem
          rcases List.mem_cons.mp hmem with h3 | h3
          · exact hc h3.symm
          · exact ih (h ▸ List.mem_cons_self a rest) h3
        · exact ih (h ▸ List.mem_cons_of_mem a h2)

theorem splitSegs_append_sep (a b : Str) :
    splitSegs (a ++ sep :: b) = splitSegs a ++ splitSegs b := by
  induction a with
  | nil => simp [splitSegs]
  | cons c cs ih =>
    simp only [List.cons_append, splitSegs, List.append_eq]
    rw [ih]
    split
    · simp
    · cases h : splitSegs cs with
      | nil => exact absurd h (splitSegs_ne_nil cs)
      | cons x rest => simp [consHead]

theorem splitSegs_of_nosep {y : Str} (hy : ∀ c ∈ y, c ≠ sep) :
    splitSegs y = [y] := by
  induction y with
  | nil => simp [splitSegs]
  | cons c cs ih =>
    simp only [splitSegs]
    rw [if_neg (hy c (List.mem_cons_self c cs))]
    rw [ih fun c hc => hy c (List.mem_cons_of_mem _ hc)]
    simp [consHead]

theorem consHead_modLast (c : Char) (y : Str) {l : List Str} (hl : l ≠ []) :
    consHead c (modLast (· ++ y) l) = modLast (· ++ y) (consHead c l) := by
  cases l with
  | nil => exact absurd rfl hl
  | cons a rest =>
    cases rest with
    | nil => simp [modLast, consHead]
    | cons b rest2 => simp [modLast, consHead]

theorem splitSegs_append_nosep {y : Str} (x : Str) (hy : ∀ c ∈ y, c ≠ sep) :
    splitSegs (x ++ y) = modLast (· ++ y) (splitSegs x) := by
  induction x with
  | nil =>
    simp only [List.nil_append, splitSegs, modLast]
    exact splitSegs_of_nosep hy
  | cons c cs ih =>
    simp only [List.cons_append, splitSegs, List.append_eq]
    rw [ih]
    split
    · cases h : splitSegs cs with
      | nil => exact absurd h (splitSegs_ne_nil cs)
      | cons a rest => simp [modLast]
    · exact consHead_modLast c y (splitSegs_ne_nil cs)

theorem modLast_eq_dropLast_append (f : Str → Str) {l : List Str}
    (hl : l ≠ []) : modLast f l = l.dropLast ++ [f (l.getLastD [])] := by
  induction l with
  | nil => exact absurd rfl hl
  | cons a rest ih =>
    cases rest with
    | nil => simp [modLast]
    | cons b rest2 =>
      simp only [modLast, List.dropLast_cons_of_ne_nil (List.cons_ne_nil b rest2),
        List.cons_append]
      rw [ih (List.cons_ne_nil b rest2)]
      simp [List.getLastD_cons]

theorem joinSegs_append_singleton {xs : List Str} (y : Str) (hxs : xs ≠ []) :
    joinSegs (xs ++ [y]) = joinSegs xs ++ sep :: y := by
  induction xs with
  | nil => exact absurd rfl hxs
  | cons a rest ih =>
    cases rest with
    | nil => simp [joinSegs]
    | cons b rest2 =>
      simp only [List.cons_append, joinSegs, List.append_eq]
      rw [← List.cons_append b rest2 [y], ih (List.cons_ne_nil b rest2)]
      simp

theorem joinSegs_append {xs ys : List Str} (hxs : xs ≠ []) (hys : ys ≠ []) :
    joinSegs (xs ++ ys) = joinSegs xs ++ sep :: joinSegs ys := by
  induction ys using List.reverseRecOn with
  | nil => exact absurd rfl hys
  | append_singleton ys' y ih =>
    cases h : ys' with
    | nil =>
      subst h
      simpa using joinSegs_append_singleton y hxs
    | cons b rest =>
      rw [← h]
      have hys' : ys' ≠ [] := h ▸ List.cons_ne_nil b rest
      rw [← List.append_assoc, joinSegs_append_singleton y (by simp [hxs]),
        joinSegs_append_singleton y hys', ih hys']
      simp

theorem normAbs_append (xs ys : List Str) :
    normAbs (xs ++ ys) = List.foldl normStep (normAbs xs) ys := by
  simp [normAbs, List.foldl_append]

theorem normAbs_snoc_keep {s : Str} (xs : List Str)
    (h1 : s ≠ []) (h2 : s ≠ ['.']) (h3 : s ≠ ['.', '.']) :
    normAbs (xs ++ [s]) = normAbs xs ++ [s] := by
  rw [normAbs_append]
  simp only [List.foldl_cons, List.foldl_nil, normStep]
  rw [if_neg (by simp [h1, h2]), if_neg h3]

theorem foldl_normStep_no_dotdot {ys : List Str}
    (hys : ['.', '.'] ∉ ys) (acc : List Str) :
    List.foldl normStep acc ys = acc ++ ys.filter keepSeg := by
  induction ys generalizing acc with
  | nil => simp
  | cons a rest ih =>
    have ha : a ≠ ['.', '.'] := fun h => hys (h ▸ List.mem_cons_self a rest)
    have hrest : ['.', '.'] ∉ rest := fun h => hys (List.mem_cons_of_mem a h)
    simp only [List.foldl_cons, List.filter_cons]
    by_cases hkeep : a = [] ∨ a = ['.']
    · have : keepSeg a = false := by
        rcases hkeep with h | h <;> simp [keepSeg, h]
      rw [this]
      simp only [normStep, if_pos hkeep]
      exact ih hrest acc
    · have : keepSeg a = true := by
        push_neg at hkeep
        simp [keepSeg, hkeep.1, hkeep.2]
      rw [this]
      simp only [normStep, if_neg hkeep, if_neg ha]
      rw [ih hrest (acc ++ [a])]
      simp

theorem mem_foldl_normStep {x : Str} {l : List Str} {acc : List Str}
    (hx : x ∈ List.foldl normStep acc l) :
    x ∈ acc ∨ (keepSeg x = true ∧ x ∈ l) := by
  induction l generalizing acc with
  | nil => exact Or.inl (by simpa using hx)
  | cons a rest ih =>
    simp only [List.foldl_cons] at hx
    rcases ih hx with h | h
    · simp only [normStep] at h
      split at h
      · exact Or.inl h
      · split at h
        · exact Or.inl (List.dropLast_subset acc h)
        · rcases List.mem_append.mp h with h2 | h2
          · exact Or.inl h2
          · rename_i hne1 hne2
            refine Or.inr ⟨?_, by simp [List.mem_singleton.mp h2]⟩
            have := List.mem_singleton.mp h2
            subst this
            push_neg at hne1
            simp [keepSeg, hne1.1, hne1.2]
    · exact Or.inr ⟨h.1, List.mem_cons_of_mem a h.2⟩

theorem mem_normAbs_splitSegs {p : Str} {s : Str}
    (hs : s ∈ normAbs (splitSegs p)) : s ≠ [] ∧ sep ∉ s := by
  rcases mem_foldl_normStep hs with h | h
  · simp at h
  · refine ⟨?_, sep_not_mem_of_mem_splitSegs h.2⟩
    intro hnil
    subst hnil
    simp [keepSeg] at h

theorem getLast?_joinSegs_ne_sep {segs : List Str}
    (h : ∀ s ∈ segs, s ≠ [] ∧ sep ∉ s) :
    (joinSegs segs).getLast? ≠ some sep := by
  induction segs with
  | nil => simp [joinSegs]
  | cons a rest ih =>
    cases rest with
    | nil =>
      have ha := h a (List.mem_cons_self a [])
      simp only [joinSegs]
      intro hlast
      exact ha.2 (List.mem_of_mem_getLast? hlast)
    | cons b rest2 =>
      have hrec := ih fun s hs => h s (List.mem_cons_of_mem a hs)
      have hJ : joinSegs (b :: rest2) ≠ [] := by
        cases rest2 with
        | nil => exact (h b (by simp)).1
        | cons c r3 =>
          simp only [joinSegs]
          exact List.append_ne_nil_of_right_ne_nil b (List.cons_ne_nil sep _)
      cases hJeq : joinSegs (b :: rest2) with
      | nil => exact absurd hJeq hJ
      | cons j J' =>
        rw [hJeq] at hrec
        simp only [joinSegs, hJeq]
        rw [List.getLast?_append, List.getLast?_cons_cons]
        cases hv : (j :: J').getLast? with
        | none => simp at hv
        | some v =>
          rw [hv] at hrec
          simp only [Option.or_some]
          exact hrec

theorem hexDigitChar_lt_16_inj :
    ∀ m < 16, ∀ n < 16, hexDigitChar m = hexDigitChar n → m = n := by decide

theorem hexDigitChar_ne_sep : ∀ m < 16, hexDigitChar m ≠ sep := by decide

theorem hexDigitChar_ne_dot : ∀ m < 16, hexDigitChar m ≠ '.' := by decide

theorem sep_not_mem_hexEncode {bs : List Nat} (hb : ∀ b ∈ bs, b < 256) :
    sep ∉ hexEncode bs := by
  intro hmem
  simp only [hexEncode, List.mem_flatMap] at hmem
  rcases hmem with ⟨b, hbmem, hc⟩
  have hblt := hb b hbmem
  simp only [hexByte, List.mem_cons, List.mem_singleton] at hc
  rcases hc with h | h | h
  · exact hexDigitChar_ne_sep (b / 16) (Nat.div_lt_of_lt_mul (by omega)) h.symm
  · exact hexDigitChar_ne_sep (b % 16) (Nat.mod_lt b (by omega)) h.symm
  · simp at h

theorem hexEncode_length {bs : List Nat} :
    (hexEncode bs).length = 2 * bs.length := by
  induction bs with
  | nil => simp [hexEncode]
  | cons b rest ih =>
    simp only [hexEncode, List.flatMap_cons] at ih ⊢
    simp [hexByte, ih]
    omega

theorem hexEncode_inj {b1 b2 : List Nat} (h1 : ∀ b ∈ b1, b < 256)
    (h2 : ∀ b ∈ b2, b < 256) (he : hexEncode b1 = hexEncode b2) : b1 = b2 := by
  induction b1 generalizing b2 with
  | nil =>
    cases b2 with
    | nil => rfl
    | cons b rest => simp [hexEncode, hexByte] at he
  | cons a rest ih =>
    cases b2 with
    | nil => simp [hexEncode, hexByte] at he
    | cons b rest2 =>
      simp only [hexEncode, List.flatMap_cons, hexByte, List.cons_append,
        List.nil_append, List.cons.injEq] at he
      have ha := h1 a (List.mem_cons_self a rest)
      have hb := h2 b (List.mem_cons_self b rest2)
      have hd1 : a / 16 = b / 16 :=
        hexDigitChar_lt_16_inj _ (Nat.div_lt_of_lt_mul (by omega)) _
          (Nat.div_lt_of_lt_mul (by omega)) he.1
      have hd2 : a % 16 = b % 16 :=
        hexDigitChar_lt_16_inj _ (Nat.mod_lt a (by omega)) _
          (Nat.mod_lt b (by omega)) he.2.1
      have hab : a = b := by omega
      have htail : rest = rest2 :=
        ih (fun x hx => h1 x (List.mem_cons_of_mem a hx))
          (fun x hx => h2 x (List.mem_cons_of_mem b hx)) he.2.2
      rw [hab, htail]

theorem resolveAbs_ne_append_sep (p d : Str) :
    resolveAbs p ≠ resolveAbs d ++ [sep] := by
  intro h
  simp only [resolveAbs, List.cons_append, List.cons.injEq] at h
  have hlast : (joinSegs (normAbs (splitSegs p))).getLast? = some sep := by
    rw [h.2, List.getLast?_append]
    rfl
  exact getLast?_joinSegs_ne_sep
    (fun s hs => mem_normAbs_splitSegs hs) hlast

theorem pathResolve_ne_append_sep (cwd p d : Str) :
    pathResolve cwd p ≠ pathResolve cwd d ++ [sep] := by
  unfold pathResolve
  split <;> split <;> apply resolveAbs_ne_append_sep

/-! ### Characterisation of the save pipeline, case by case -/

theorem save_empty (dl : Str → Nat) (c t pfx mime : Str) (rnd : List Nat) :
    saveImageToFile dl c t [] pfx mime rnd =
      ⟨.error .invalidInput, [], [.typeCheck]⟩ := rfl

theorem validateBase64Image_badFormat {data : Str} (hne : data ≠ [])
    (hm : matchesB64 data = false) :
    validateBase64Image data =
      (some .invalidFormat, [.typeCheck, .formatCheck]) := by
  unfold validateBase64Image
  rw [if_neg hne, if_pos (by simp [hm])]

theorem validateBase64Image_estBig {data : Str} (hne : data ≠ [])
    (hm : matchesB64 data = true)
    (hbig : (data.length * 3 + 3) / 4 > MAX_IMAGE_SIZE) :
    validateBase64Image data =
      (some (.estimatedTooLarge ((data.length * 3 + 3) / 4)),
        [.typeCheck, .formatCheck, .sizeEstimate]) := by
  unfold validateBase64Image
  rw [if_neg hne, if_neg (by simp [hm]), if_pos hbig]

theorem validateBase64Image_ok {data : Str} (hne : data ≠ [])
    (hm : matchesB64 data = true)
    (hsize : ¬ (data.length * 3 + 3) / 4 > MAX_IMAGE_SIZE) :
    validateBase64Image data =
      (none, [.typeCheck, .formatCheck, .sizeEstimate]) := by
  unfold validateBase64Image
  rw [if_neg hne, if_neg (by simp [hm]), if_neg hsize]

theorem save_badFormat (dl : Str → Nat) (c t : Str) {data : Str}
    (pfx mime : Str) (rnd : List Nat) (hne : data ≠ [])
    (hm : matchesB64 data = false) :
    saveImageToFile dl c t data pfx mime rnd =
      ⟨.error .invalidFormat, [], [.typeCheck, .formatCheck]⟩ := by
  unfold saveImageToFile
  rw [validateBase64Image_badFormat hne hm]

theorem save_estBig (dl : Str → Nat) (c t : Str) {data : Str}
    (pfx mime : Str) (rnd : List Nat) (hne : data ≠ [])
    (hm : matchesB64 data = true)
    (hbig : (data.length * 3 + 3) / 4 > MAX_IMAGE_SIZE) :
    saveImageToFile dl c t data pfx mime rnd =
      ⟨.error (.estimatedTooLarge ((data.length * 3 + 3) / 4)), [],
        [.typeCheck, .formatCheck, .sizeEstimate]⟩ := by
  unfold saveImageToFile
  rw [validateBase64Image_estBig hne hm hbig]

theorem save_badMime (dl : Str → Nat) (c t : Str) {data mime : Str}
    (pfx : Str) (rnd : List Nat) (hne : data ≠ [])
    (hm : matchesB64 data = true)
    (hsize : ¬ (data.length * 3 + 3) / 4 > MAX_IMAGE_SIZE)
    (hmime : allowedMimeTypes.contains mime = false) :
    saveImageToFile dl c t data pfx mime rnd =
      ⟨.error (.unsupportedMimeType mime), [],
        [.typeCheck, .formatCheck, .sizeEstimate, .mimeCheck]⟩ := by
  unfold saveImageToFile
  rw [validateBase64Image_ok hne hm hsize]
  simp only [validateMimeType, hmime]
  rfl

theorem save_decBig (dl : Str → Nat) (c t : Str) {data mime : Str}
    (pfx : Str) (rnd : List Nat) (hne : data ≠ [])
    (hm : matchesB64 data = true)
    (hsize : ¬ (data.length * 3 + 3) / 4 > MAX_IMAGE_SIZE)
    (hmime : allowedMimeTypes.contains mime = true)
    (hdec : dl data > MAX_IMAGE_SIZE) :
    saveImageToFile dl c t data pfx mime rnd =
      ⟨.error (.decodedTooLarge (dl data)), [.mkdir (getImageBaseDir c t)],
        [.typeCheck, .formatCheck, .sizeEstimate, .mimeCheck,
         .dirPrep, .filenameGen, .decode, .postSizeCheck]⟩ := by
  unfold saveImageToFile
  rw [validateBase64Image_ok hne hm hsize]
  simp only [validateMimeType, hmime]
  simp [hdec]

theorem save_ok (dl : Str → Nat) (c t : Str) {data mime : Str}
    (pfx : Str) (rnd : List Nat) (hne : data ≠ [])
    (hm : matchesB64 data = true)
    (hsize : ¬ (data.length * 3 + 3) / 4 > MAX_IMAGE_SIZE)
    (hmime : allowedMimeTypes.contains mime = true)
    (hdec : ¬ dl data > MAX_IMAGE_SIZE) :
    saveImageToFile dl c t data pfx mime rnd =
      ⟨.ok (pathJoin (getImageBaseDir c t)
          (pfx ++ str "_" ++ hexEncode rnd ++ str "." ++ extensionFor mime)),
        [.mkdir (getImageBaseDir c t),
         .writeFile (pathJoin (getImageBaseDir c t)
          (pfx ++ str "_" ++ hexEncode rnd ++ str "." ++ extensionFor mime))],
        saveStepOrder⟩ := by
  unfold saveImageToFile
  rw [validateBase64Image_ok hne hm hsize]
  simp only [validateMimeType, hmime]
  simp [hdec, saveStepOrder]

theorem nodeDecodeLen_le_estimate (data : Str) :
    nodeDecodeLen data ≤ (data.length * 3 + 3) / 4 := by
  unfold nodeDecodeLen
  have hf : (data.filter (fun c => c ≠ '=')).length ≤ data.length :=
    List.length_filter_le _ _
  exact Nat.div_le_div_right (by omega)

theorem save_ok_characterise (dl : Str → Nat) (c t data pfx mime : Str)
    (rnd : List Nat) (fp : Str)
    (h : (saveImageToFile dl c t data pfx mime rnd).result = .ok fp) :
    fp = pathJoin (getImageBaseDir c t)
      (pfx ++ str "_" ++ hexEncode rnd ++ str "." ++ extensionFor mime) ∧
    dl data ≤ MAX_IMAGE_SIZE := by
  by_cases h1 : data = []
  · subst h1
    rw [save_empty] at h
    simp at h
  · by_cases h2 : matchesB64 data = true
    · by_cases h3 : (data.length * 3 + 3) / 4 > MAX_IMAGE_SIZE
      · rw [save_estBig dl c t pfx mime rnd h1 h2 h3] at h
        simp at h
      · by_cases h4 : allowedMimeTypes.contains mime = true
        · by_cases h5 : dl data > MAX_IMAGE_SIZE
          · rw [save_decBig dl c t pfx rnd h1 h2 h3 h4 h5] at h
            simp at h
          · rw [save_ok dl c t pfx rnd h1 h2 h3 h4 h5] at h
            simp only [Except.ok.injEq] at h
            exact ⟨h.symm, by omega⟩
        · rw [save_badMime dl c t pfx rnd h1 h2 h3 (by simpa using h4)] at h
          simp at h
    · rw [save_badFormat dl c t pfx mime rnd h1 (by simpa using h2)] at h
      simp at h

/-- Claim C3: for every base64-alphabet-valid string whose decoded length
exceeds 10 MiB, save fails with a `PayloadTooLarge`-kind error, performs
no filesystem operation (in particular no file is created), and stops at
the pre-decode size estimate, before any decode; moreover (re-check), any
save that returns a path — under an arbitrary decoder model — had an
actual decoded length within the same ceiling. -/
theorem save_payload_too_large (c t data pfx mime : Str) (rnd : List Nat)
    (hm : matchesB64 data = true)
    (hbig : nodeDecodeLen data > MAX_IMAGE_SIZE) :
    (∃ e, (saveImageToFile nodeDecodeLen c t data pfx mime rnd).result = .error e ∧
      e.kind = .payloadTooLarge) ∧
    (saveImageToFile nodeDecodeLen c t data pfx mime rnd).ops = [] ∧
    (saveImageToFile nodeDecodeLen c t data pfx mime rnd).steps =
      [.typeCheck, .formatCheck, .sizeEstimate] ∧
    (∀ (dl : Str → Nat) (data2 pfx2 mime2 : Str) (rnd2 : List Nat) (fp : Str),
      (saveImageToFile dl c t data2 pfx2 mime2 rnd2).result = .ok fp →
        dl data2 ≤ MAX_IMAGE_SIZE) := by
  have hne : data ≠ [] := by
    intro h
    rw [h] at hbig
    simp [nodeDecodeLen, MAX_IMAGE_SIZE] at hbig
  have hest : (data.length * 3 + 3) / 4 > MAX_IMAGE_SIZE :=
    lt_of_lt_of_le hbig (nodeDecodeLen_le_estimate data)
  rw [save_estBig nodeDecodeLen c t pfx mime rnd hne hm hest]
  refine ⟨⟨_, rfl, rfl⟩, rfl, rfl, ?_⟩
  intro dl data2 pfx2 mime2 rnd2 fp hok
  exact (save_ok_characterise dl c t data2 pfx2 mime2 rnd2 fp hok).2

theorem matchesB64_replicate_A (n : Nat) :
    matchesB64 (List.replicate n 'A') = true := by
  unfold matchesB64
  rw [List.reverse_replicate, List.takeWhile_replicate, List.dropWhile_replicate]
  rw [if_neg (by decide), if_neg (by decide), List.reverse_replicate]
  rw [Bool.and_eq_true]
  refine ⟨by decide, ?_⟩
  rw [List.all_eq_true]
  intro c hc
  rw [List.eq_of_mem_replicate hc]
  decide

theorem nodeDecodeLen_replicate_A (n : Nat) :
    nodeDecodeLen (List.replicate n 'A') = n * 3 / 4 := by
  unfold nodeDecodeLen
  rw [List.filter_replicate, if_pos (by decide), List.length_replicate]

/-- Witness for C3 at the concrete input `'A'` repeated 15,000,000 times
(a valid base64 string whose decoded length is 11,250,000 bytes,
exceeding the 10 MiB ceiling). -/
theorem save_payload_too_large_witness :
    matchesB64 (List.replicate 15000000 'A') = true ∧
    nodeDecodeLen (List.replicate 15000000 'A') > MAX_IMAGE_SIZE ∧
    (saveImageToFile nodeDecodeLen [] (str "/tmp")
      (List.replicate 15000000 'A') (str "p") (str "image/png") []).ops = [] := by
  have hm := matchesB64_replicate_A 15000000
  have hlen : nodeDecodeLen (List.replicate 15000000 'A') > MAX_IMAGE_SIZE := by
    rw [nodeDecodeLen_replicate_A]
    norm_num [MAX_IMAGE_SIZE]
  exact ⟨hm, hlen,
    (save_payload_too_large [] (str "/tmp") (List.replicate 15000000 'A')
      (str "p") (str "image/png") [] hm hlen).2.1⟩

/-- Claim C4 counterexample: with an invalid payload and a disallowed MIME
type together, save fails with `InvalidFormat`, not `UnsupportedMimeType`
— so the error is not `UnsupportedMimeType` "regardless of payload
validity". -/
theorem save_mime_counterexample :
    allowedMimeTypes.contains (str "image/gif") = false ∧
    (saveImageToFile nodeDecodeLen [] (str "/tmp") (str "!!!invalid!!!")
      (str "p") (str "image/gif") [0, 0, 0, 0, 0, 0, 0, 0]).result =
      .error .invalidFormat ∧
    SaveErr.invalidFormat.kind ≠ ErrKind.unsupportedMimeType := by
  refine ⟨by decide, ?_, by decide⟩
  decide

/-- Claim C4 amended: for every MIME type outside the allow-list, save
fails with `UnsupportedMimeType` and performs no filesystem operation,
provided the payload passes the earlier base64 validation; when the
payload is invalid, the earlier validation error wins instead. -/
theorem save_unsupported_mime (dl : Str → Nat) (c t : Str) {data mime : Str}
    (pfx : Str) (rnd : List Nat)
    (hv : (validateBase64Image data).1 = none)
    (hmime : allowedMimeTypes.contains mime = false) :
    (saveImageToFile dl c t data pfx mime rnd).result =
      .error (.unsupportedMimeType mime) ∧
    (saveImageToFile dl c t data pfx mime rnd).ops = [] := by
  have h1 : data ≠ [] := by
    intro h
    rw [h] at hv
    simp [validateBase64Image] at hv
  have h2 : matchesB64 data = true := by
    by_contra h
    rw [validateBase64Image_badFormat h1 (by simpa using h)] at hv
    simp at hv
  have h3 : ¬ (data.length * 3 + 3) / 4 > MAX_IMAGE_SIZE := by
    by_contra h
    rw [validateBase64Image_estBig h1 h2 h] at hv
    simp at hv
  rw [save_badMime dl c t pfx rnd h1 h2 h3 hmime]
  exact ⟨rfl, rfl⟩

/-- Witness for C4 (amended) at a valid payload and `image/gif`. -/
theorem save_unsupported_mime_witness :
    (validateBase64Image (str "QUJD")).1 = none ∧
    allowedMimeTypes.contains (str "image/gif") = false ∧
    (saveImageToFile nodeDecodeLen [] (str "/tmp") (str "QUJD") (str "p")
      (str "image/gif") [0, 0, 0, 0, 0, 0, 0, 0]).result =
      .error (.unsupportedMimeType (str "image/gif")) :=
  ⟨by decide, by decide,
    (save_unsupported_mime nodeDecodeLen [] (str "/tmp") (str "p")
      [0, 0, 0, 0, 0, 0, 0, 0] (by decide) (by decide)).1⟩

/-- Claim C5 counterexample: a successful save executes directory
preparation and filename generation before decode and the post-decode
size check, so its step sequence differs from the order claimed by the
specification (decode and post-size check before directory
preparation). -/
theorem save_step_order_counterexample :
    (saveImageToFile nodeDecodeLen [] (str "/tmp") (str "QUJD") (str "p")
      (str "image/png") [0, 0, 0, 0, 0, 0, 0, 0]).steps ≠ claimedStepOrder ∧
    (saveImageToFile nodeDecodeLen [] (str "/tmp") (str "QUJD") (str "p")
      (str "image/png") [0, 0, 0, 0, 0, 0, 0, 0]).steps = saveStepOrder ∧
    (∃ fp, (saveImageToFile nodeDecodeLen [] (str "/tmp") (str "QUJD")
      (str "p") (str "image/png") [0, 0, 0, 0, 0, 0, 0, 0]).result = .ok fp) := by
  refine ⟨by decide, by decide, ⟨_, rfl⟩⟩

/-- Claim C5 amended: the pipeline executes type check, format check,
size estimate, MIME check, directory preparation, filename generation,
decode, post-decode size check, write — in that order — and fails fast:
the first violated check (in check order: type, format, estimate, MIME,
post-decode) determines the error, and the pipeline stops at it. -/
theorem save_pipeline_order (dl : Str → Nat) (c t data pfx mime : Str)
    (rnd : List Nat) :
    (firstViolation dl data mime = none →
      (∃ fp, (saveImageToFile dl c t data pfx mime rnd).result = .ok fp) ∧
      (saveImageToFile dl c t data pfx mime rnd).steps = saveStepOrder) ∧
    (∀ e, firstViolation dl data mime = some e →
      (saveImageToFile dl c t data pfx mime rnd).result = .error e ∧
      (saveImageToFile dl c t data pfx mime rnd).steps = stepsOnFailure e) := by
  by_cases h1 : data = []
  · subst h1
    rw [show firstViolation dl [] mime = some .invalidInput from rfl, save_empty]
    exact ⟨fun h => by simp at h,
      fun e he => by
        simp only [Option.some.injEq] at he
        subst he
        exact ⟨rfl, rfl⟩⟩
  · by_cases h2 : matchesB64 data = true
    · by_cases h3 : (data.length * 3 + 3) / 4 > MAX_IMAGE_SIZE
      · have hfv : firstViolation dl data mime =
            some (.estimatedTooLarge ((data.length * 3 + 3) / 4)) := by
          unfold firstViolation
          rw [if_neg h1, if_neg (by simp [h2]), if_pos h3]
        rw [hfv, save_estBig dl c t pfx mime rnd h1 h2 h3]
        exact ⟨fun h => by simp at h,
          fun e he => by
            simp only [Option.some.injEq] at he
            subst he
            exact ⟨rfl, rfl⟩⟩
      · by_cases h4 : allowedMimeTypes.contains mime = true
        · by_cases h5 : dl data > MAX_IMAGE_SIZE
          · have hfv : firstViolation dl data mime =
                some (.decodedTooLarge (dl data)) := by
              unfold firstViolation
              rw [if_neg h1, if_neg (by simp [h2]), if_neg h3,
                if_neg (not_not_intro h4), if_pos h5]
            rw [hfv, save_decBig dl c t pfx rnd h1 h2 h3 h4 h5]
            exact ⟨fun h => by simp at h,
              fun e he => by
                simp only [Option.some.injEq] at he
                subst he
                exact ⟨rfl, rfl⟩⟩
          · have hfv : firstViolation dl data mime = none := by
              unfold firstViolation
              rw [if_neg h1, if_neg (by simp [h2]), if_neg h3,
                if_neg (not_not_intro h4), if_neg h5]
            rw [hfv, save_ok dl c t pfx rnd h1 h2 h3 h4 h5]
            exact ⟨fun _ => ⟨⟨_, rfl⟩, rfl⟩, fun e he => by simp at he⟩
        · have hfv : firstViolation dl data mime =
              some (.unsupportedMimeType mime) := by
            unfold firstViolation
            rw [if_neg h1, if_neg (by simp [h2]), if_neg h3, if_pos h4]
          rw [hfv, save_badMime dl c t pfx rnd h1 h2 h3 (by simpa using h4)]
          exact ⟨fun h => by simp at h,
            fun e he => by
              simp only [Option.some.injEq] at he
              subst he
              exact ⟨rfl, rfl⟩⟩
    · have hfv : firstViolation dl data mime = some .invalidFormat := by
        unfold firstViolation
        rw [if_neg h1, if_pos (by simp [h2])]
      rw [hfv, save_badFormat dl c t pfx mime rnd h1 (by simpa using h2)]
      exact ⟨fun h => by simp at h,
        fun e he => by
          simp only [Option.some.injEq] at he
          subst he
          exact ⟨rfl, rfl⟩⟩

/-- Witness for C5 (amended), instantiating the success case and one
failure case at concrete inputs. -/
theorem save_pipeline_order_witness :
    ((∃ fp, (saveImageToFile nodeDecodeLen [] (str "/tmp") (str "QUJD")
        (str "p") (str "image/png") [0]).result = .ok fp) ∧
      (saveImageToFile nodeDecodeLen [] (str "/tmp") (str "QUJD") (str "p")
        (str "image/png") [0]).steps = saveStepOrder) ∧
    (saveImageToFile nodeDecodeLen [] (str "/tmp") (str "!!!") (str "p")
      (str "image/png") [0]).result = .error .invalidFormat :=
  ⟨(save_pipeline_order nodeDecodeLen [] (str "/tmp") (str "QUJD") (str "p")
      (str "image/png") [0]).1 (by decide),
    ((save_pipeline_order nodeDecodeLen [] (str "/tmp") (str "!!!") (str "p")
      (str "image/png") [0]).2 .invalidFormat (by decide)).1⟩

/-- Claim C9: a save failing the type, format, size-estimate or MIME check
performs no filesystem operation at all; a save failing only the
post-decode size check has already created the output directory (its
operation trace is exactly the `mkdir`), and writes no file. -/
theorem save_side_effects (dl : Str → Nat) (c t data pfx mime : Str)
    (rnd : List Nat) :
    ((saveImageToFile dl c t data pfx mime rnd).result = .error .invalidInput ∨
     (saveImageToFile dl c t data pfx mime rnd).result = .error .invalidFormat ∨
     (∃ n, (saveImageToFile dl c t data pfx mime rnd).result =
        .error (.estimatedTooLarge n)) ∨
     (∃ m, (saveImageToFile dl c t data pfx mime rnd).result =
        .error (.unsupportedMimeType m)) →
      (saveImageToFile dl c t data pfx mime rnd).ops = []) ∧
    (∀ n, (saveImageToFile dl c t data pfx mime rnd).result =
        .error (.decodedTooLarge n) →
      (saveImageToFile dl c t data pfx mime rnd).ops =
        [.mkdir (getImageBaseDir c t)] ∧
      ∀ q, FsOp.writeFile q ∉ (saveImageToFile dl c t data pfx mime rnd).ops) := by
  by_cases h1 : data = []
  · subst h1
    rw [save_empty]
    exact ⟨fun _ => rfl, fun n hn => by simp at hn⟩
  · by_cases h2 : matchesB64 data = true
    · by_cases h3 : (data.length * 3 + 3) / 4 > MAX_IMAGE_SIZE
      · rw [save_estBig dl c t pfx mime rnd h1 h2 h3]
        exact ⟨fun _ => rfl, fun n hn => by simp at hn⟩
      · by_cases h4 : allowedMimeTypes.contains mime = true
        · by_cases h5 : dl data > MAX_IMAGE_SIZE
          · rw [save_decBig dl c t pfx rnd h1 h2 h3 h4 h5]
            refine ⟨fun h => ?_, fun n hn => ⟨rfl, fun q => by simp⟩⟩
            simp at h
          · rw [save_ok dl c t pfx rnd h1 h2 h3 h4 h5]
            refine ⟨fun h => ?_, fun n hn => by simp at hn⟩
            simp at h
        · rw [save_badMime dl c t pfx rnd h1 h2 h3 (by simpa using h4)]
          exact ⟨fun _ => rfl, fun n hn => by simp at hn⟩
    · rw [save_badFormat dl c t pfx mime rnd h1 (by simpa using h2)]
      exact ⟨fun _ => rfl, fun n hn => by simp at hn⟩

/-- Witness for C9: both conjuncts at concrete inputs — an early failure
with an empty operation trace, and a post-decode failure (under a
decoder model that overshoots) whose trace is exactly the `mkdir`. -/
theorem save_side_effects_witness :
    (saveImageToFile nodeDecodeLen [] (str "/tmp") (str "!!!") (str "p")
      (str "image/png") [0]).ops = [] ∧
    (saveImageToFile (fun _ => 10485761) [] (str "/tmp") (str "QUJD")
      (str "p") (str "image/png") [0]).ops =
      [.mkdir (getImageBaseDir [] (str "/tmp"))] :=
  ⟨(save_side_effects nodeDecodeLen [] (str "/tmp") (str "!!!") (str "p")
      (str "image/png") [0]).1 (Or.inr (Or.inl (by decide))),
    (((save_side_effects (fun _ => 10485761) [] (str "/tmp") (str "QUJD")
      (str "p") (str "image/png") [0]).2 10485761 (by decide))).1⟩

/-- Claim C6: a non-empty string failing the base64-alphabet regular
expression makes save fail with `InvalidFormat`; the empty string makes
save fail with `InvalidInput` instead. -/
theorem save_format_errors (dl : Str → Nat) (c t pfx mime : Str)
    (rnd : List Nat) (s : Str) :
    (s ≠ [] → matchesB64 s = false →
      (saveImageToFile dl c t s pfx mime rnd).result = .error .invalidFormat) ∧
    (saveImageToFile dl c t [] pfx mime rnd).result = .error .invalidInput := by
  constructor
  · intro hne hm
    rw [save_badFormat dl c t pfx mime rnd hne hm]
  · rw [save_empty]

/-- Witness for C6 at `"!!!invalid!!!"` and `""`. -/
theorem save_format_errors_witness :
    (str "!!!invalid!!!" ≠ [] ∧ matchesB64 (str "!!!invalid!!!") = false) ∧
    (saveImageToFile nodeDecodeLen [] (str "/tmp") (str "!!!invalid!!!")
      (str "p") (str "image/png") [0]).result = .error .invalidFormat ∧
    (saveImageToFile nodeDecodeLen [] (str "/tmp") [] (str "p")
      (str "image/png") [0]).result = .error .invalidInput :=
  ⟨⟨by decide, by decide⟩,
    (save_format_errors nodeDecodeLen [] (str "/tmp") (str "p")
      (str "image/png") [0] (str "!!!invalid!!!")).1 (by decide) (by decide),
    (save_format_errors nodeDecodeLen [] (str "/tmp") (str "p")
      (str "image/png") [0] (str "!!!invalid!!!")).2⟩

/-- Claim C2: `isPathAllowed` returns `true` exactly when the resolved
candidate equals some resolved allowed directory or has that directory
followed by the separator as a strict prefix; in particular, with only
`/home/user` allowed, `/home/user` is allowed and `/home/userx/secret` is
not (prefix-boundary test). -/
theorem isPathAllowed_characterisation (allowedImageDirs : List Str)
    (cwd p : Str) :
    (isPathAllowed allowedImageDirs cwd p = true ↔
      ∃ d ∈ allowedImageDirs,
        pathResolve cwd p = pathResolve cwd d ∨
          ((pathResolve cwd d ++ [sep]) <+: pathResolve cwd p ∧
            pathResolve cwd p ≠ pathResolve cwd d ++ [sep])) ∧
    isPathAllowed [str "/home/user"] (str "/home") (str "/home/user") = true ∧
    isPathAllowed [str "/home/user"] (str "/home")
      (str "/home/userx/secret") = false := by
  refine ⟨?_, by decide, by decide⟩
  unfold isPathAllowed
  rw [List.any_eq_true]
  constructor
  · rintro ⟨d, hd, hb⟩
    rw [Bool.or_eq_true, beq_iff_eq] at hb
    rcases hb with hb | hb
    · exact ⟨d, hd, Or.inr ⟨ List.isPrefixOf_iff_prefix.mp hb,
        pathResolve_ne_append_sep cwd p d⟩⟩
    · exact ⟨d, hd, Or.inl hb⟩
  · rintro ⟨d, hd, h | h⟩
    · refine ⟨d, hd, ?_⟩
      rw [Bool.or_eq_true, beq_iff_eq]
      exact Or.inr h
    · refine ⟨d, hd, ?_⟩
      rw [Bool.or_eq_true]
      exact Or.inl ( List.isPrefixOf_iff_prefix.mpr h.1)

/-- Claim C8: the guard is a total Boolean function of the candidate string
and configuration alone (it takes no filesystem state at all), and when
it rejects a non-URL, non-data-URI string, `editImage` falls back to
treating the string as raw base64 data — for every possible filesystem
read behaviour. -/
theorem guard_false_fallback (allowedImageDirs : List Str) (cwd : Str)
    (readFileBase64 : Str → Option Str) (image : Str)
    (h1 : (str "data:image/").isPrefixOf image = false)
    (h2 : (str "http://").isPrefixOf image = false)
    (h3 : (str "https://").isPrefixOf image = false)
    (hguard : isPathAllowed allowedImageDirs cwd image = false) :
    resolveImageContent allowedImageDirs cwd readFileBase64 image =
      str "data:image/png;base64," ++ image := by
  unfold resolveImageContent
  rw [if_neg (by simp [h1]), if_neg (by simp [h2, h3]),
    if_pos (by simp [hguard])]

/-- Witness for C8 at `"../../etc/passwd"` under allowed `/home/user`:
the guard rejects it and the fallback produces the raw-data content,
independently of the (here: failing) file reader. -/
theorem guard_false_fallback_witness :
    isPathAllowed [str "/home/user"] (str "/home")
      (str "../../etc/passwd") = false ∧
    resolveImageContent [str "/home/user"] (str "/home") (fun _ => none)
      (str "../../etc/passwd") =
      str "data:image/png;base64," ++ str "../../etc/passwd" :=
  ⟨by decide,
    guard_false_fallback [str "/home/user"] (str "/home") (fun _ => none)
      (str "../../etc/passwd") (by decide) (by decide) (by decide) (by decide)⟩

theorem pathJoin_abs (base fn : Str) (hbase : base.head? = some sep)
    (hfn : fn ≠ []) (hlast : fn.getLast? ≠ some sep) :
    pathJoin base fn =
      sep :: joinSegs (normAbs (splitSegs (base ++ sep :: fn))) := by
  have hbne : base ≠ [] := by
    intro h
    rw [h] at hbase
    simp at hbase
  have hpne : base ++ sep :: fn ≠ [] := by simp
  have hhead : (base ++ sep :: fn).head? = some sep := by
    rw [List.head?_append, hbase]
    rfl
  obtain ⟨v, hv, hvne⟩ :
      ∃ v, (base ++ sep :: fn).getLast? = some v ∧ v ≠ sep := by
    rw [List.getLast?_append]
    cases fn with
    | nil => exact absurd rfl hfn
    | cons f0 fr =>
      rw [List.getLast?_cons_cons]
      cases hu : (f0 :: fr).getLast? with
      | none => simp at hu
      | some u =>
        refine ⟨u, rfl, ?_⟩
        intro h
        rw [h] at hu
        exact hlast hu
  unfold pathJoin
  rw [if_neg (by simp [hbne]), if_neg hbne, if_neg hfn]
  unfold pathNormalize
  rw [if_neg hpne]
  simp only [hhead, hv]
  simp [hvne]

theorem pathJoin_abs_sepfree (base fn : Str) (hbase : base.head? = some sep)
    (hnr : normAbs (splitSegs base) ≠ []) (hfn : fn ≠ [])
    (hsf : ∀ c ∈ fn, c ≠ sep)
    (hk1 : fn ≠ ['.']) (hk2 : fn ≠ ['.', '.']) :
    pathJoin base fn = resolveAbs base ++ sep :: fn := by
  have hlast : fn.getLast? ≠ some sep := by
    intro h
    exact hsf sep (List.mem_of_mem_getLast? h) rfl
  rw [pathJoin_abs base fn hbase hfn hlast]
  rw [splitSegs_append_sep, splitSegs_of_nosep hsf]
  rw [normAbs_snoc_keep _ hfn hk1 hk2]
  rw [joinSegs_append_singleton fn hnr]
  simp [resolveAbs]

theorem extensionFor_cases (mime : Str) :
    extensionFor mime = str "png" ∨ extensionFor mime = str "jpg" ∨
      extensionFor mime = str "webp" := by
  unfold extensionFor
  split
  · exact Or.inr (Or.inl rfl)
  · split
    · exact Or.inr (Or.inr rfl)
    · exact Or.inl rfl

theorem extensionFor_getLast (mime : Str) :
    (extensionFor mime).getLast? = some 'g' ∨
      (extensionFor mime).getLast? = some 'p' := by
  rcases extensionFor_cases mime with h | h | h <;> rw [h]
  · exact Or.inl rfl
  · exact Or.inl rfl
  · exact Or.inr rfl

theorem extensionFor_sepfree (mime : Str) :
    ∀ c ∈ extensionFor mime, c ≠ sep := by
  rcases extensionFor_cases mime with h | h | h <;> rw [h] <;> decide

theorem ne_dot_segs {l : Str} {c : Char} (h : l.getLast? = some c)
    (hc : c ≠ '.') : l ≠ ['.'] ∧ l ≠ ['.', '.'] := by
  constructor
  · intro hl
    rw [hl] at h
    exact hc (by simpa using h.symm)
  · intro hl
    rw [hl] at h
    exact hc (by simpa using h.symm)

/-- The full filename built by `saveImageToFile`. -/
theorem filename_facts (pfx : Str) (rnd : List Nat) (mime : Str)
    (hpfx : sep ∉ pfx) (hbytes : ∀ b ∈ rnd, b < 256) :
    (∀ c ∈ pfx ++ str "_" ++ hexEncode rnd ++ str "." ++ extensionFor mime,
      c ≠ sep) ∧
    pfx ++ str "_" ++ hexEncode rnd ++ str "." ++ extensionFor mime ≠ [] ∧
    (∃ v, (pfx ++ str "_" ++ hexEncode rnd ++ str "." ++
      extensionFor mime).getLast? = some v ∧ v ≠ '.') := by
  have hext := extensionFor_getLast mime
  have hextne : extensionFor mime ≠ [] := by
    rcases extensionFor_cases mime with h | h | h <;> rw [h] <;> decide
  refine ⟨?_, ?_, ?_⟩
  · intro c hc
    simp only [List.mem_append] at hc
    rcases hc with (((hc | hc) | hc) | hc) | hc
    · intro h
      rw [h] at hc
      exact hpfx hc
    · intro h
      rw [h] at hc
      simp [str, sep] at hc
    · intro h
      rw [h] at hc
      exact sep_not_mem_hexEncode hbytes hc
    · intro h
      rw [h] at hc
      simp [str, sep] at hc
    · exact extensionFor_sepfree mime c hc
  · intro h
    exact hextne (List.append_eq_nil.mp h).2
  · rw [List.getLast?_append]
    rcases hext with h | h <;> rw [h]
    · exact ⟨'g', rfl, by decide⟩
    · exact ⟨'p', rfl, by decide⟩

/-- Claim C1 amended: when the configured output base directory is an
absolute path other than the root, and the caller-supplied prefix
contains no path separator, every path returned by a successful save is
strictly below the resolved base directory.  (Without the separator-free
restriction on the prefix the property fails: see the counterexample.) -/
theorem save_path_within_base (dl : Str → Nat) (custom tmp data pfx mime : Str)
    (rnd : List Nat) (fp : Str)
    (hbase : (getImageBaseDir custom tmp).head? = some sep)
    (hnr : normAbs (splitSegs (getImageBaseDir custom tmp)) ≠ [])
    (hpfx : sep ∉ pfx)
    (hbytes : ∀ b ∈ rnd, b < 256)
    (hok : (saveImageToFile dl custom tmp data pfx mime rnd).result = .ok fp) :
    withinDir (resolveAbs (getImageBaseDir custom tmp)) fp = true := by
  obtain ⟨hfp, -⟩ :=
    save_ok_characterise dl custom tmp data pfx mime rnd fp hok
  obtain ⟨hsf, hfnne, v, hv, hvdot⟩ := filename_facts pfx rnd mime hpfx hbytes
  obtain ⟨hk1, hk2⟩ := ne_dot_segs hv hvdot
  rw [hfp, pathJoin_abs_sepfree _ _ hbase hnr hfnne hsf hk1 hk2]
  unfold withinDir
  rw [Bool.or_eq_true]
  right
  rw [ List.isPrefixOf_iff_prefix]
  have hsplit : resolveAbs (getImageBaseDir custom tmp) ++ sep ::
      (pfx ++ str "_" ++ hexEncode rnd ++ str "." ++ extensionFor mime) =
      (resolveAbs (getImageBaseDir custom tmp) ++ [sep]) ++
      (pfx ++ str "_" ++ hexEncode rnd ++ str "." ++ extensionFor mime) := by
    simp
  rw [hsplit]
  exact List.prefix_append _ _

/-- Witness for C1 (amended) at a separator-free prefix. -/
theorem save_path_within_base_witness :
    (getImageBaseDir [] (str "/tmp")).head? = some sep ∧
    (saveImageToFile nodeDecodeLen [] (str "/tmp") (str "QUJD") (str "img")
      (str "image/png") [0, 0, 0, 0, 0, 0, 0, 0]).result =
      .ok (str "/tmp/siliconflow-images/img_0000000000000000.png") ∧
    withinDir (resolveAbs (getImageBaseDir [] (str "/tmp")))
      (str "/tmp/siliconflow-images/img_0000000000000000.png") = true :=
  ⟨by decide, by decide,
    save_path_within_base nodeDecodeLen [] (str "/tmp") (str "QUJD")
      (str "img") (str "image/png") [0, 0, 0, 0, 0, 0, 0, 0]
      (str "/tmp/siliconflow-images/img_0000000000000000.png")
      (by decide) (by decide) (by decide) (by decide) (by decide)⟩

/-- Claim C1 counterexample: the caller-supplied prefix is joined into the
path unsanitised, so the prefix `"../../etc/evil"` makes a successful
save write and return `/etc/evil_0000000000000000.png`, which is outside
the configured base directory `/tmp/siliconflow-images`. -/
theorem save_path_escape_counterexample :
    (saveImageToFile nodeDecodeLen [] (str "/tmp") (str "QUJD")
      (str "../../etc/evil") (str "image/png")
      [0, 0, 0, 0, 0, 0, 0, 0]).result =
      .ok (str "/etc/evil_0000000000000000.png") ∧
    (saveImageToFile nodeDecodeLen [] (str "/tmp") (str "QUJD")
      (str "../../etc/evil") (str "image/png")
      [0, 0, 0, 0, 0, 0, 0, 0]).ops =
      [.mkdir (str "/tmp/siliconflow-images"),
       .writeFile (str "/etc/evil_0000000000000000.png")] ∧
    withinDir (resolveAbs (getImageBaseDir [] (str "/tmp")))
      (str "/etc/evil_0000000000000000.png") = false := by
  refine ⟨by decide, by decide, by decide⟩

theorem pathJoin_last_inj (base w y1 y2 : Str)
    (hbase : base.head? = some sep)
    (hy1 : ∀ c ∈ y1, c ≠ sep) (hy2 : ∀ c ∈ y2, c ≠ sep)
    (hn1 : y1 ≠ []) (hn2 : y2 ≠ [])
    (hl1 : ∀ c, y1.getLast? = some c → c ≠ '.')
    (hl2 : ∀ c, y2.getLast? = some c → c ≠ '.')
    (heq : pathJoin base (w ++ y1) = pathJoin base (w ++ y2)) : y1 = y2 := by
  have expand : ∀ y : Str, (∀ c ∈ y, c ≠ sep) → y ≠ [] →
      (∀ c, y.getLast? = some c → c ≠ '.') →
      pathJoin base (w ++ y) =
        sep :: joinSegs (normAbs ((splitSegs (base ++ sep :: w)).dropLast) ++
          [(splitSegs (base ++ sep :: w)).getLastD [] ++ y]) := by
    intro y hy hn hl
    obtain ⟨v, hv⟩ : ∃ v, y.getLast? = some v := by
      cases y with
      | nil => exact absurd rfl hn
      | cons a l =>
        cases hu : (a :: l).getLast? with
        | none => simp at hu
        | some u => exact ⟨u, rfl⟩
    have hvsep : v ≠ sep := hy v (List.mem_of_mem_getLast? hv)
    have hvdot : v ≠ '.' := hl v hv
    have hfn_ne : w ++ y ≠ [] := fun h => hn (List.append_eq_nil.mp h).2
    have hfn_last : (w ++ y).getLast? = some v := by
      rw [List.getLast?_append, hv]
      rfl
    rw [pathJoin_abs base (w ++ y) hbase hfn_ne
      (by rw [hfn_last]; simp [hvsep])]
    have hassoc : base ++ sep :: (w ++ y) = (base ++ sep :: w) ++ y := by simp
    rw [hassoc, splitSegs_append_nosep _ hy,
      modLast_eq_dropLast_append _ (splitSegs_ne_nil _)]
    have hsegne : (splitSegs (base ++ sep :: w)).getLastD [] ++ y ≠ [] :=
      fun h => hn (List.append_eq_nil.mp h).2
    have hseglast :
        ((splitSegs (base ++ sep :: w)).getLastD [] ++ y).getLast? = some v := by
      rw [List.getLast?_append, hv]
      rfl
    obtain ⟨hk1, hk2⟩ := ne_dot_segs hseglast hvdot
    rw [normAbs_snoc_keep _ hsegne hk1 hk2]
  rw [expand y1 hy1 hn1 hl1, expand y2 hy2 hn2 hl2] at heq
  cases hNe : normAbs ((splitSegs (base ++ sep :: w)).dropLast) with
  | nil =>
    rw [hNe] at heq
    simp only [List.nil_append, joinSegs] at heq
    have h4 : (splitSegs (base ++ sep :: w)).getLastD [] ++ y1 =
        (splitSegs (base ++ sep :: w)).getLastD [] ++ y2 := by
      injection heq
    exact List.append_cancel_left h4
  | cons n0 nr =>
    rw [hNe] at heq
    rw [joinSegs_append_singleton _ (List.cons_ne_nil n0 nr),
      joinSegs_append_singleton _ (List.cons_ne_nil n0 nr)] at heq
    have h2 : joinSegs (n0 :: nr) ++
        sep :: ((splitSegs (base ++ sep :: w)).getLastD [] ++ y1) =
        joinSegs (n0 :: nr) ++
        sep :: ((splitSegs (base ++ sep :: w)).getLastD [] ++ y2) := by
      injection heq
    have h3 := List.append_cancel_left h2
    have h4 : (splitSegs (base ++ sep :: w)).getLastD [] ++ y1 =
        (splitSegs (base ++ sep :: w)).getLastD [] ++ y2 := by
      injection h3
    exact List.append_cancel_left h4

theorem suffix_facts (mime : Str) (rnd : List Nat)
    (hb : ∀ b ∈ rnd, b < 256) :
    (∀ c ∈ hexEncode rnd ++ (str "." ++ extensionFor mime), c ≠ sep) ∧
    hexEncode rnd ++ (str "." ++ extensionFor mime) ≠ [] ∧
    (∀ c, (hexEncode rnd ++ (str "." ++ extensionFor mime)).getLast? = some c →
      c ≠ '.') := by
  have hext := extensionFor_getLast mime
  refine ⟨?_, ?_, ?_⟩
  · intro c hc
    rcases List.mem_append.mp hc with hc | hc
    · intro h
      rw [h] at hc
      exact sep_not_mem_hexEncode hb hc
    · rcases List.mem_append.mp hc with hc | hc
      · intro h
        rw [h] at hc
        simp [str, sep] at hc
      · exact extensionFor_sepfree mime c hc
  · intro h
    have h2 := (List.append_eq_nil.mp h).2
    simp [str] at h2
  · intro c hc
    rw [List.getLast?_append, List.getLast?_append] at hc
    rcases hext with h | h <;> rw [h] at hc <;>
      simp only [Option.or] at hc <;>
      · injection hc with hc2
        subst hc2
        decide

/-- Claim C7: two successful saves with the same prefix and MIME type but
different random bytes return distinct paths; the returned path is the
join of the base directory with `{prefix}_{randomSuffix}.{ext}` where the
random suffix hex-encodes the 8 random bytes into 16 characters and the
extension is a pure function of the validated MIME type (png, jpg, or
webp). -/
theorem save_paths_distinct (dl : Str → Nat) (custom tmp data pfx mime : Str)
    (rnd1 rnd2 : List Nat) (fp1 fp2 : Str)
    (hbase : (getImageBaseDir custom tmp).head? = some sep)
    (hb1 : ∀ b ∈ rnd1, b < 256) (hb2 : ∀ b ∈ rnd2, b < 256)
    (hne : rnd1 ≠ rnd2)
    (h1 : (saveImageToFile dl custom tmp data pfx mime rnd1).result = .ok fp1)
    (h2 : (saveImageToFile dl custom tmp data pfx mime rnd2).result = .ok fp2) :
    fp1 ≠ fp2 ∧
    fp1 = pathJoin (getImageBaseDir custom tmp)
      (pfx ++ str "_" ++ hexEncode rnd1 ++ str "." ++ extensionFor mime) ∧
    (rnd1.length = 8 → (hexEncode rnd1).length = 16) ∧
    (extensionFor mime = str "png" ∨ extensionFor mime = str "jpg" ∨
      extensionFor mime = str "webp") := by
  obtain ⟨hfp1, -⟩ :=
    save_ok_characterise dl custom tmp data pfx mime rnd1 fp1 h1
  obtain ⟨hfp2, -⟩ :=
    save_ok_characterise dl custom tmp data pfx mime rnd2 fp2 h2
  refine ⟨?_, hfp1, fun h8 => by rw [hexEncode_length, h8],
    extensionFor_cases mime⟩
  intro hfpeq
  apply hne
  have heq : pathJoin (getImageBaseDir custom tmp)
      ((pfx ++ str "_") ++ (hexEncode rnd1 ++ (str "." ++ extensionFor mime))) =
      pathJoin (getImageBaseDir custom tmp)
      ((pfx ++ str "_") ++ (hexEncode rnd2 ++ (str "." ++ extensionFor mime))) := by
    simp only [← List.append_assoc]
    rw [← hfp1, ← hfp2]
    exact hfpeq
  obtain ⟨hy1, hn1, hl1⟩ := suffix_facts mime rnd1 hb1
  obtain ⟨hy2, hn2, hl2⟩ := suffix_facts mime rnd2 hb2
  have hsuffix := pathJoin_last_inj (getImageBaseDir custom tmp)
    (pfx ++ str "_") _ _ hbase hy1 hy2 hn1 hn2 hl1 hl2 heq
  exact hexEncode_inj hb1 hb2 (List.append_cancel_right hsuffix)

/-- Witness for C7 at two concrete random draws. -/
theorem save_paths_distinct_witness :
    (saveImageToFile nodeDecodeLen [] (str "/tmp") (str "QUJD") (str "img")
      (str "image/png") [0, 0, 0, 0, 0, 0, 0, 0]).result =
      .ok (str "/tmp/siliconflow-images/img_0000000000000000.png") ∧
    (saveImageToFile nodeDecodeLen [] (str "/tmp") (str "QUJD") (str "img")
      (str "image/png") [0, 0, 0, 0, 0, 0, 0, 1]).result =
      .ok (str "/tmp/siliconflow-images/img_0000000000000001.png") ∧
    str "/tmp/siliconflow-images/img_0000000000000000.png" ≠
      str "/tmp/siliconflow-images/img_0000000000000001.png" :=
  ⟨by decide, by decide,
    (save_paths_distinct nodeDecodeLen [] (str "/tmp") (str "QUJD")
      (str "img") (str "image/png") [0, 0, 0, 0, 0, 0, 0, 0]
      [0, 0, 0, 0, 0, 0, 0, 1]
      (str "/tmp/siliconflow-images/img_0000000000000000.png")
      (str "/tmp/siliconflow-images/img_0000000000000001.png")
      (by decide) (by decide) (by decide) (by decide)
      (by decide) (by decide)).1⟩

theorem cwd_mem_default (home custom tmp cwd : Str) (hc : cwd ≠ []) :
    cwd ∈ getDefaultAllowedDirs home cwd custom tmp := by
  unfold getDefaultAllowedDirs
  simp [hc]

/-- Claim C10: a relative candidate is resolved against the working
directory; under the default allowed-directory set (which contains the
working directory), any candidate resolving at or under the working
directory is approved, and in particular every relative path with no
`..` segments is approved (for an absolute, non-root working
directory). -/
theorem relative_paths_allowed (home custom tmp cwd p q : Str)
    (hcwd : cwd.head? = some sep)
    (hroot : normAbs (splitSegs cwd) ≠ [])
    (hrel : p.head? ≠ some sep)
    (hdots : ['.', '.'] ∉ splitSegs p) :
    pathResolve cwd p = resolveAbs (cwd ++ sep :: p) ∧
    (withinDir (pathResolve cwd cwd) (pathResolve cwd q) = true →
      isPathAllowed (getDefaultAllowedDirs home cwd custom tmp) cwd q = true) ∧
    isPathAllowed (getDefaultAllowedDirs home cwd custom tmp) cwd p = true := by
  have hcne : cwd ≠ [] := by
    intro h
    rw [h] at hcwd
    simp at hcwd
  have hmem := cwd_mem_default home custom tmp cwd hcne
  refine ⟨by rw [pathResolve, if_neg hrel], ?_, ?_⟩
  · intro hwd
    unfold isPathAllowed
    rw [List.any_eq_true]
    refine ⟨cwd, hmem, ?_⟩
    unfold withinDir at hwd
    rw [Bool.or_eq_true] at hwd ⊢
    rcases hwd with h | h
    · exact Or.inr h
    · exact Or.inl h
  · have hres : pathResolve cwd p =
        sep :: joinSegs (normAbs (splitSegs cwd) ++
          (splitSegs p).filter keepSeg) := by
      rw [pathResolve, if_neg hrel]
      unfold resolveAbs
      rw [splitSegs_append_sep, normAbs_append,
        foldl_normStep_no_dotdot hdots]
    have hrescwd : pathResolve cwd cwd =
        sep :: joinSegs (normAbs (splitSegs cwd)) := by
      rw [pathResolve, if_pos hcwd]
      rfl
    unfold isPathAllowed
    rw [List.any_eq_true]
    refine ⟨cwd, hmem, ?_⟩
    rw [Bool.or_eq_true]
    cases hK : (splitSegs p).filter keepSeg with
    | nil =>
      right
      rw [beq_iff_eq, hres, hrescwd, hK]
      simp
    | cons k0 kr =>
      left
      rw [ List.isPrefixOf_iff_prefix, hres, hrescwd, hK]
      rw [joinSegs_append hroot (List.cons_ne_nil k0 kr)]
      refine ⟨joinSegs (k0 :: kr), ?_⟩
      simp

/-- Witness for C10 at a concrete environment and relative path. -/
theorem relative_paths_allowed_witness :
    isPathAllowed
      (getDefaultAllowedDirs (str "/home/u") (str "/work") [] (str "/tmp"))
      (str "/work") (str "images/a.png") = true ∧
    (withinDir (pathResolve (str "/work") (str "/work"))
        (pathResolve (str "/work") (str "sub")) = true ∧
      isPathAllowed
        (getDefaultAllowedDirs (str "/home/u") (str "/work") [] (str "/tmp"))
        (str "/work") (str "sub") = true) :=
  ⟨(relative_paths_allowed (str "/home/u") [] (str "/tmp") (str "/work")
      (str "images/a.png") (str "sub") (by decide) (by decide) (by decide)
      (by decide)).2.2,
    ⟨by decide,
      (relative_paths_allowed (str "/home/u") [] (str "/tmp") (str "/work")
        (str "images/a.png") (str "sub") (by decide) (by decide) (by decide)
        (by decide)).2.1 (by decide)⟩⟩

end SFImage
